import Mathlib

/-!
# Verification of the bull-bear-cloud analytics engine

A shallow embedding of the pure analytics core of `src/app.py`:
max-pain calculation, the four-strategy signal generator and composite
confluence score, PCR, expiry-code date math, the weekly-expiry helper,
and the per-bucket OI-history aggregation.

Modelling conventions:
* Python floats are modelled exactly as rationals (`ℚ`); the literals
  `0.012`, `1.5`, `1.1`, `0.9`, `2.5` become the rationals they denote.
* Python strings that are only constructed and displayed are modelled as
  `String`; the expiry code (whose character shape is under study) is
  modelled as `List Char`.
* Python dicts keyed by strike preserve insertion order (first occurrence
  of a key fixes its position; later assignments overwrite the value).
  `pyDedup` reproduces that key order, and last-write-wins lookups are
  folds over the row list.
* The five trend strings and the flow-status strings take only finitely
  many values in the program, so they are embedded as inductive types.
-/

/-- First-occurrence deduplication: the key order of a Python dict that is
filled by iterating a list. -/
def pyDedup {α : Type} [DecidableEq α] : List α → List α
  | [] => []
  | a :: l => a :: (pyDedup l).filter (fun x => x ≠ a)

theorem mem_pyDedup {α : Type} [DecidableEq α] (l : List α) (x : α) :
    x ∈ pyDedup l ↔ x ∈ l := by
  induction l with
  | nil => simp [pyDedup]
  | cons a l ih =>
    simp only [pyDedup, List.mem_cons, List.mem_filter, ih, decide_eq_true_eq, ne_eq]
    constructor
    · rintro (h | ⟨h, _⟩)
      · exact Or.inl h
      · exact Or.inr h
    · intro h
      by_cases hxa : x = a
      · exact Or.inl hxa
      · rcases h with h | h
        · exact Or.inl h
        · exact Or.inr ⟨h, hxa⟩

/-- Per-leg trend classification values (`get_trend` in `src/app.py` returns
exactly these five strings). -/
inductive Trend
  | longBuildup
  | shortBuildup
  | shortCovering
  | longUnwinding
  | neutral
deriving DecidableEq

/-- One merged strike row of an option chain (the dict built by
`fetch_option_chain_data`). Only the fields read by the analytics
functions are carried; the remaining quote fields (`ltp`, `vol`, `iv`,
`delta`, `theta`, `is_atm`) are never read by the functions under study.
The zero / Neutral defaults mirror the `row.get(key, 0)` and
`row.get(key, 'Neutral')` accesses in the source. -/
structure StrikeRow where
  strike : Int
  ce_oi : Int := 0
  pe_oi : Int := 0
  ce_oich : Int := 0
  pe_oich : Int := 0
  ce_trend : Trend := Trend.neutral
  pe_trend : Trend := Trend.neutral
deriving DecidableEq

/-- The inner loop of `calculate_max_pain`: total writer pain at candidate
expiration price `expiration_price`, accumulated over the chain rows. -/
def total_pain (chain : List StrikeRow) (expiration_price : Int) : Int :=
  chain.foldl (fun acc row =>
    let acc1 := if expiration_price > row.strike
      then acc + (expiration_price - row.strike) * row.ce_oi else acc
    if expiration_price < row.strike
      then acc1 + (row.strike - expiration_price) * row.pe_oi else acc1) 0

/-- `min(pains, key=pains.get)` over keys listed in `l` with running best
`b`: Python's `min` keeps the earliest key attaining the minimum. -/
def argminFirst (f : Int → Int) : List Int → Int → Int
  | [], b => b
  | k :: ks, b => argminFirst f ks (if f k < f b then k else b)

/-- `calculate_max_pain` from `src/app.py`: the candidate strikes are the
dict keys (first-occurrence order), and the result is the earliest strike
with minimal total pain; `0` for an empty chain. -/
def calculate_max_pain (chain : List StrikeRow) : Int :=
  match pyDedup (chain.map StrikeRow.strike) with
  | [] => 0
  | s :: ss => argminFirst (total_pain chain) ss s

theorem argminFirst_mem (f : Int → Int) (l : List Int) (b : Int) :
    argminFirst f l b ∈ b :: l := by
  induction l generalizing b with
  | nil => simp [argminFirst]
  | cons k ks ih =>
    rw [argminFirst]
    rcases List.mem_cons.mp (ih (if f k < f b then k else b)) with h | h
    · rw [h]
      split
      · simp
      · simp
    · simp [List.mem_cons, h]

theorem argminFirst_le (f : Int → Int) (l : List Int) (b : Int) :
    ∀ x ∈ b :: l, f (argminFirst f l b) ≤ f x := by
  induction l generalizing b with
  | nil =>
    intro x hx
    rw [List.mem_singleton.mp hx]
    exact le_refl _
  | cons k ks ih =>
    intro x hx
    rw [argminFirst]
    have hball := ih (if f k < f b then k else b)
    rcases List.mem_cons.mp hx with h | h
    · rw [h]
      by_cases hkb : f k < f b
      · simp only [hkb, if_true] at hball ⊢
        exact le_of_lt (lt_of_le_of_lt (hball _ (by simp)) hkb)
      · simp only [hkb, if_false] at hball ⊢
        exact hball _ (by simp)
    rcases List.mem_cons.mp h with h2 | h2
    · rw [h2]
      by_cases hkb : f k < f b
      · simp only [hkb, if_true] at hball ⊢
        exact hball _ (by simp)
      · simp only [hkb, if_false] at hball ⊢
        exact le_trans (hball _ (by simp)) (le_of_not_lt hkb)
    · by_cases hkb : f k < f b
      · simp only [hkb, if_true] at hball ⊢
        exact hball _ (by simp [h2])
      · simp only [hkb, if_false] at hball ⊢
        exact hball _ (by simp [h2])

theorem argminFirst_find (f : Int → Int) (l : List Int) (b : Int) :
    (b :: l).find? (fun x => decide (f x ≤ f (argminFirst f l b)))
      = some (argminFirst f l b) := by
  induction l generalizing b with
  | nil =>
    rw [argminFirst]
    exact List.find?_cons_of_pos _ (by simp)
  | cons k ks ih =>
    rw [argminFirst]
    by_cases hkb : f k < f b
    · simp only [hkb, if_true]
      have hle : f (argminFirst f ks k) ≤ f k :=
        argminFirst_le f ks k _ (by simp)
      have hb : ¬ (f b ≤ f (argminFirst f ks k)) := by
        intro hcon
        exact absurd (lt_of_le_of_lt (le_trans hcon hle) hkb) (lt_irrefl _)
      rw [List.find?_cons_of_neg _ (by simpa using hb)]
      exact ih k
    · simp only [hkb, if_false]
      have ihb := ih b
      by_cases hpb : f b ≤ f (argminFirst f ks b)
      · have hfb : (b :: ks).find?
            (fun x => decide (f x ≤ f (argminFirst f ks b))) = some b :=
          List.find?_cons_of_pos _ (by simpa using hpb)
        have hbr : argminFirst f ks b = b := Option.some.inj (ihb.symm.trans hfb)
        rw [hbr]
        exact List.find?_cons_of_pos _ (by simp)
      · have hpk : ¬ (f k ≤ f (argminFirst f ks b)) := by
          intro hcon
          exact hpb (le_trans (le_of_not_lt hkb) hcon)
        rw [List.find?_cons_of_neg _ (by simpa using hpb),
          List.find?_cons_of_neg _ (by simpa using hpk)]
        rw [List.find?_cons_of_neg _ (by simpa using hpb)] at ihb
        exact ihb

/-- The pain formula of the spec: `max(0,E−k)·ceOI(k) + max(0,k−E)·peOI(k)`
summed over all rows. -/
theorem total_pain_eq_sum (chain : List StrikeRow) (E : Int) :
    total_pain chain E
      = (chain.map (fun r =>
          max 0 (E - r.strike) * r.ce_oi + max 0 (r.strike - E) * r.pe_oi)).sum := by
  suffices h : ∀ acc : Int, chain.foldl (fun acc row =>
      let acc1 := if E > row.strike
        then acc + (E - row.strike) * row.ce_oi else acc
      if E < row.strike
        then acc1 + (row.strike - E) * row.pe_oi else acc1) acc
      = acc + (chain.map (fun r =>
          max 0 (E - r.strike) * r.ce_oi + max 0 (r.strike - E) * r.pe_oi)).sum by
    have := h 0
    simpa [total_pain] using this
  induction chain with
  | nil => intro acc; simp
  | cons r rs ih =>
    intro acc
    rw [List.foldl_cons, ih]
    simp only [List.map_cons, List.sum_cons]
    have hstep : (let acc1 := if E > r.strike
        then acc + (E - r.strike) * r.ce_oi else acc
      if E < r.strike
        then acc1 + (r.strike - E) * r.pe_oi else acc1)
      = acc + (max 0 (E - r.strike) * r.ce_oi + max 0 (r.strike - E) * r.pe_oi) := by
      rcases lt_trichotomy E r.strike with h | h | h
      · have h1 : ¬ (E > r.strike) := not_lt_of_lt h
        have h2 : max 0 (E - r.strike) = 0 := max_eq_left (by omega)
        have h3 : max 0 (r.strike - E) = r.strike - E := max_eq_right (by omega)
        simp [h1, h, h2, h3]
      · simp [h, max_eq_left (le_refl (0 : Int))]
      · have h1 : ¬ (E < r.strike) := not_lt_of_lt h
        have h2 : max 0 (E - r.strike) = E - r.strike := max_eq_right (by omega)
        have h3 : max 0 (r.strike - E) = 0 := max_eq_left (by omega)
        simp only [h1, if_false, h, if_true, h2, h3]
        ring
    rw [hstep]
    ring

/-- C1: for a non-empty chain, `calculate_max_pain` returns a strike of the
chain; its total pain (which equals the spec's
`Σ max(0,E−k)·ceOI(k) + Σ max(0,k−E)·peOI(k)` by `total_pain_eq_sum`) is
minimal over all candidate strikes; and among the candidates (in
first-encountered chain order) the returned strike is the first one
attaining the minimum. -/
theorem calculate_max_pain_spec (chain : List StrikeRow) (h : chain ≠ []) :
    (∃ row ∈ chain, row.strike = calculate_max_pain chain) ∧
    (∀ row ∈ chain,
      total_pain chain (calculate_max_pain chain) ≤ total_pain chain row.strike) ∧
    ((pyDedup (chain.map StrikeRow.strike)).find?
        (fun E => decide (total_pain chain E
          ≤ total_pain chain (calculate_max_pain chain)))
      = some (calculate_max_pain chain)) := by
  rcases hd : pyDedup (chain.map StrikeRow.strike) with _ | ⟨s, ss⟩
  · exfalso
    rcases List.exists_mem_of_ne_nil chain h with ⟨r, hr⟩
    have hmem : r.strike ∈ pyDedup (chain.map StrikeRow.strike) :=
      (mem_pyDedup _ _).mpr (List.mem_map.mpr ⟨r, hr, rfl⟩)
    rw [hd] at hmem
    exact absurd hmem (List.not_mem_nil _)
  · have hmp : calculate_max_pain chain = argminFirst (total_pain chain) ss s := by
      rw [calculate_max_pain, hd]
    refine ⟨?_, ?_, ?_⟩
    · have hm : calculate_max_pain chain ∈ s :: ss := hmp ▸ argminFirst_mem _ _ _
      have hmm : calculate_max_pain chain ∈ chain.map StrikeRow.strike := by
        rw [← mem_pyDedup, hd]
        exact hm
      rcases List.mem_map.mp hmm with ⟨r, hr, hrs⟩
      exact ⟨r, hr, hrs⟩
    · intro row hrow
      have hmem : row.strike ∈ s :: ss := by
        rw [← hd, mem_pyDedup]
        exact List.mem_map.mpr ⟨row, hrow, rfl⟩
      rw [hmp]
      exact argminFirst_le _ _ _ _ hmem
    · rw [hmp]
      exact argminFirst_find _ _ _

/-- Witness for C1 at a concrete three-strike chain: writer pain is
minimal at strike 100. -/
theorem calculate_max_pain_spec_witness :
    (∃ row ∈ [({ strike := 50, ce_oi := 10, pe_oi := 1 } : StrikeRow),
              { strike := 100, ce_oi := 5, pe_oi := 5 },
              { strike := 150, ce_oi := 1, pe_oi := 10 }],
      row.strike = calculate_max_pain
        [({ strike := 50, ce_oi := 10, pe_oi := 1 } : StrikeRow),
         { strike := 100, ce_oi := 5, pe_oi := 5 },
         { strike := 150, ce_oi := 1, pe_oi := 10 }]) ∧
    calculate_max_pain
        [({ strike := 50, ce_oi := 10, pe_oi := 1 } : StrikeRow),
         { strike := 100, ce_oi := 5, pe_oi := 5 },
         { strike := 150, ce_oi := 1, pe_oi := 10 }] = 100 :=
  ⟨(calculate_max_pain_spec
      [{ strike := 50, ce_oi := 10, pe_oi := 1 },
       { strike := 100, ce_oi := 5, pe_oi := 5 },
       { strike := 150, ce_oi := 1, pe_oi := 10 }] (by decide)).1,
   by decide⟩

/-- The three tracked index symbols (the `symbol` strings passed to
`calculate_signals` by `data_worker`). -/
inductive MktSymbol
  | NIFTY
  | BANKNIFTY
  | FINNIFTY
deriving DecidableEq

/-- Signal direction (`'BULLISH'` / `'BEARISH'`). -/
inductive SigType
  | bullish
  | bearish
deriving DecidableEq

/-- The four strategy names appearing in signal dicts. -/
inductive Strategy
  | pcrSentiment
  | maxPainReversion
  | smartMoneyFlow
  | trendAlignment
deriving DecidableEq

/-- A generated signal. The free-text `desc` field (an f-string
interpolating live values, never read by the program) is not modelled. -/
structure Signal where
  type : SigType
  strategy : Strategy
deriving DecidableEq

/-- The five values the `flow_status` string takes in `calculate_signals`:
"Balanced", "Call Unwinding", "Put Unwinding", "Strong Put Writing",
"Strong Call Writing". -/
inductive FlowStatus
  | balanced
  | callUnwinding
  | putUnwinding
  | strongPutWriting
  | strongCallWriting
deriving DecidableEq

/-- `is_flow_bull` as a function of the flow status (the two branches that
set it to True). -/
def FlowStatus.isBull : FlowStatus → Bool
  | .callUnwinding => true
  | .strongPutWriting => true
  | _ => false

/-- `is_flow_bear` as a function of the flow status. -/
def FlowStatus.isBear : FlowStatus → Bool
  | .putUnwinding => true
  | .strongCallWriting => true
  | _ => false

/-- The `"Unwinding" in flow_status` substring test: of the five status
strings exactly "Call Unwinding" and "Put Unwinding" contain it. -/
def FlowStatus.hasUnwinding : FlowStatus → Bool
  | .callUnwinding => true
  | .putUnwinding => true
  | _ => false

/-- `MP_DIV = 100 if symbol == 'BANKNIFTY' else 50`. -/
def MP_DIV (symbol : MktSymbol) : Int :=
  if symbol = MktSymbol.BANKNIFTY then 100 else 50

/-- `near_chain`: rows whose strike is within `atm_strike * 0.012` of the
ATM strike. -/
def near_chain (chain : List StrikeRow) (atm_strike : Int) : List StrikeRow :=
  chain.filter (fun r =>
    |(r.strike : ℚ) - (atm_strike : ℚ)| ≤ (atm_strike : ℚ) * (12 / 1000))

/-- The OI-flow classification of `calculate_signals` (scenario A/B/C with
aggression threshold 1.5, written `OI_AGGR` in the source). -/
def flowAnalysis (ce_chg_sum pe_chg_sum : Int) : FlowStatus :=
  if ce_chg_sum < 0 ∧ pe_chg_sum > 0 then FlowStatus.callUnwinding
  else if pe_chg_sum < 0 ∧ ce_chg_sum > 0 then FlowStatus.putUnwinding
  else if ce_chg_sum > 0 ∧ pe_chg_sum > 0 then
    if (pe_chg_sum : ℚ) > (ce_chg_sum : ℚ) * (3 / 2) then FlowStatus.strongPutWriting
    else if (ce_chg_sum : ℚ) > (pe_chg_sum : ℚ) * (3 / 2) then FlowStatus.strongCallWriting
    else FlowStatus.balanced
  else FlowStatus.balanced

/-- Trend-score contribution of a CE-leg trend. -/
def ce_trend_delta : Trend → ℚ
  | .longBuildup => 1
  | .shortBuildup => -1
  | .shortCovering => 1 / 2
  | .longUnwinding => -(1 / 2)
  | .neutral => 0

/-- Trend-score contribution of a PE-leg trend. -/
def pe_trend_delta : Trend → ℚ
  | .shortBuildup => 1
  | .longBuildup => -1
  | .shortCovering => -(1 / 2)
  | .longUnwinding => 1 / 2
  | .neutral => 0

/-- The weighted trend score accumulated over the near-ATM rows. -/
def trend_score (near : List StrikeRow) : ℚ :=
  near.foldl (fun acc r => acc + ce_trend_delta r.ce_trend + pe_trend_delta r.pe_trend) 0

/-- `trend_status` classification (thresholds 2.5 / −2.5). -/
inductive TrendStatus
  | bullish
  | bearish
  | neutral
deriving DecidableEq

def trendStatusOf (ts : ℚ) : TrendStatus :=
  if ts ≥ 5 / 2 then TrendStatus.bullish
  else if ts ≤ -(5 / 2) then TrendStatus.bearish
  else TrendStatus.neutral

/-- Rule 1, PCR Sentiment (`PCR_BULL = 1.1`, `PCR_BEAR = 0.9`). -/
def pcrSignal (pcr : ℚ) : Option Signal :=
  if pcr ≥ 11 / 10 then some ⟨SigType.bullish, Strategy.pcrSentiment⟩
  else if pcr ≤ 9 / 10 then some ⟨SigType.bearish, Strategy.pcrSentiment⟩
  else none

/-- Rule 2, Max Pain Reversion. -/
def maxPainSignal (spot pcr : ℚ) (max_pain mp_div : Int) : Option Signal :=
  if spot < ((max_pain : ℚ) - (mp_div : ℚ)) ∧ pcr > 9 / 10 then
    some ⟨SigType.bullish, Strategy.maxPainReversion⟩
  else if spot > ((max_pain : ℚ) + (mp_div : ℚ)) ∧ pcr < 11 / 10 then
    some ⟨SigType.bearish, Strategy.maxPainReversion⟩
  else none

/-- Rule 3, Smart Money Flow signal from the flow status. -/
def flowSignal (st : FlowStatus) : Option Signal :=
  if st.isBull then some ⟨SigType.bullish, Strategy.smartMoneyFlow⟩
  else if st.isBear then some ⟨SigType.bearish, Strategy.smartMoneyFlow⟩
  else none

/-- Rule 4, Trend Alignment signal from the trend status. -/
def trendSignal (ts : TrendStatus) : Option Signal :=
  if ts = TrendStatus.bullish then some ⟨SigType.bullish, Strategy.trendAlignment⟩
  else if ts = TrendStatus.bearish then some ⟨SigType.bearish, Strategy.trendAlignment⟩
  else none

/-- Composite-score contribution of the flow rule (block A). -/
def flowScorePart (st : FlowStatus) : Int :=
  if st.isBull then (if st.hasUnwinding then 4 else 3)
  else if st.isBear then (if st.hasUnwinding then -4 else -3)
  else 0

/-- Reasons appended by block A. -/
def flowReasons (st : FlowStatus) : List String :=
  if st.isBull then
    (if st.hasUnwinding then ["Call Unwinding (Explosive)"] else ["Put Writing (Support)"])
  else if st.isBear then
    (if st.hasUnwinding then ["Put Unwinding (Crash)"] else ["Call Writing (Resistance)"])
  else []

/-- Composite-score contribution of the trend rule (block B). -/
def trendScorePart (ts : TrendStatus) : Int :=
  if ts = TrendStatus.bullish then 2
  else if ts = TrendStatus.bearish then -2
  else 0

/-- Reasons appended by block B. -/
def trendReasons (ts : TrendStatus) : List String :=
  if ts = TrendStatus.bullish then ["Bullish Structure"]
  else if ts = TrendStatus.bearish then ["Bearish Structure"]
  else []

/-- Composite-score contribution of the PCR rule (block C). -/
def pcrScorePart (pcr : ℚ) : Int :=
  if pcr ≥ 11 / 10 then 2
  else if pcr ≤ 9 / 10 then -2
  else 0

/-- Reasons appended by block C. -/
def pcrReasons (pcr : ℚ) : List String :=
  if pcr ≥ 11 / 10 then ["PCR Oversold/Bullish"]
  else if pcr ≤ 9 / 10 then ["PCR Overbought/Bearish"]
  else []

/-- Composite-score contribution of the max-pain rule (block D; the source
appends no reason in this block). -/
def maxPainScorePart (spot : ℚ) (max_pain mp_div : Int) : Int :=
  if spot > ((max_pain : ℚ) + (mp_div : ℚ)) then -1
  else if spot < ((max_pain : ℚ) - (mp_div : ℚ)) then 1
  else 0

/-- Trade recommendation and colour tag from the composite score. -/
def actionColor (score : Int) : String × String :=
  if score ≥ 5 then ( "STRONG BUY (CE)", "emerald")
  else if score ≥ 2 then ( "BUY ON DIPS", "teal")
  else if score ≤ -5 then ( "STRONG SELL (PE)", "rose")
  else if score ≤ -2 then ( "SELL ON RISE", "orange")
  else ( "WAIT / NEUTRAL", "slate")

/-- The confluence card (`signal_card` dict). -/
structure SignalCard where
  symbol : MktSymbol
  score : Int
  action : String
  color : String
  reasons : List String
  pcr : ℚ
  max_pain : Int
  spot : ℚ
deriving DecidableEq

/-- `calculate_signals` from `src/app.py`: guard, the four signal rules in
source order, and the composite confluence card. The empty dict `{}`
returned by the guards is modelled as `none`. -/
def calculate_signals (symbol : MktSymbol) (chain : List StrikeRow)
    (spot pcr : ℚ) (max_pain atm_strike : Int) :
    List Signal × Option SignalCard :=
  if chain = [] ∨ atm_strike = 0 then ([], none)
  else if chain.length < 10 then ([], none)
  else
    let mp_div := MP_DIV symbol
    let near := near_chain chain atm_strike
    let ce_chg_sum := (near.map StrikeRow.ce_oich).sum
    let pe_chg_sum := (near.map StrikeRow.pe_oich).sum
    let flow_status := flowAnalysis ce_chg_sum pe_chg_sum
    let trend_status := trendStatusOf (trend_score near)
    let signals := (pcrSignal pcr).toList
      ++ (maxPainSignal spot pcr max_pain mp_div).toList
      ++ (flowSignal flow_status).toList
      ++ (trendSignal trend_status).toList
    let score := flowScorePart flow_status + trendScorePart trend_status
      + pcrScorePart pcr + maxPainScorePart spot max_pain mp_div
    let reasons := flowReasons flow_status ++ trendReasons trend_status ++ pcrReasons pcr
    let ac := actionColor score
    (signals,
      some ⟨symbol, score, ac.1, ac.2, reasons.take 2, pcr, max_pain, spot⟩)

/-- C2: with fewer than 10 strikes or an unset (zero) ATM strike,
`calculate_signals` returns no signals and an empty score card. -/
theorem calculate_signals_guard (symbol : MktSymbol) (chain : List StrikeRow)
    (spot pcr : ℚ) (max_pain atm_strike : Int)
    (h : chain.length < 10 ∨ atm_strike = 0) :
    calculate_signals symbol chain spot pcr max_pain atm_strike = ([], none) := by
  unfold calculate_signals
  rcases h with h | h
  · by_cases h0 : chain = [] ∨ atm_strike = 0
    · rw [if_pos h0]
    · rw [if_neg h0, if_pos h]
  · rw [if_pos (Or.inr h)]

/-- Witness for C2: a 3-strike chain is below the 10-strike floor. -/
theorem calculate_signals_guard_witness :
    calculate_signals MktSymbol.NIFTY
      [{ strike := 100 }, { strike := 150 }, { strike := 200 }]
      100 1 150 150 = ([], none) :=
  calculate_signals_guard MktSymbol.NIFTY
    [{ strike := 100 }, { strike := 150 }, { strike := 200 }]
    100 1 150 150 (Or.inl (by decide))

/-- The signal list produced once both data-quality guards pass. -/
theorem calculate_signals_fst (symbol : MktSymbol) (chain : List StrikeRow)
    (spot pcr : ℚ) (max_pain atm_strike : Int)
    (h1 : ¬(chain = [] ∨ atm_strike = 0)) (h2 : ¬ chain.length < 10) :
    (calculate_signals symbol chain spot pcr max_pain atm_strike).1
      = (pcrSignal pcr).toList
        ++ (maxPainSignal spot pcr max_pain (MP_DIV symbol)).toList
        ++ (flowSignal (flowAnalysis
              (((near_chain chain atm_strike).map StrikeRow.ce_oich).sum)
              (((near_chain chain atm_strike).map StrikeRow.pe_oich).sum))).toList
        ++ (trendSignal (trendStatusOf (trend_score (near_chain chain atm_strike)))).toList := by
  simp only [calculate_signals, if_neg h1, if_neg h2]

/-- The card produced once both data-quality guards pass. -/
theorem calculate_signals_snd (symbol : MktSymbol) (chain : List StrikeRow)
    (spot pcr : ℚ) (max_pain atm_strike : Int)
    (h1 : ¬(chain = [] ∨ atm_strike = 0)) (h2 : ¬ chain.length < 10) :
    (calculate_signals symbol chain spot pcr max_pain atm_strike).2
      = some ⟨symbol,
          flowScorePart (flowAnalysis
              (((near_chain chain atm_strike).map StrikeRow.ce_oich).sum)
              (((near_chain chain atm_strike).map StrikeRow.pe_oich).sum))
            + trendScorePart (trendStatusOf (trend_score (near_chain chain atm_strike)))
            + pcrScorePart pcr + maxPainScorePart spot max_pain (MP_DIV symbol),
          (actionColor (flowScorePart (flowAnalysis
              (((near_chain chain atm_strike).map StrikeRow.ce_oich).sum)
              (((near_chain chain atm_strike).map StrikeRow.pe_oich).sum))
            + trendScorePart (trendStatusOf (trend_score (near_chain chain atm_strike)))
            + pcrScorePart pcr + maxPainScorePart spot max_pain (MP_DIV symbol))).1,
          (actionColor (flowScorePart (flowAnalysis
              (((near_chain chain atm_strike).map StrikeRow.ce_oich).sum)
              (((near_chain chain atm_strike).map StrikeRow.pe_oich).sum))
            + trendScorePart (trendStatusOf (trend_score (near_chain chain atm_strike)))
            + pcrScorePart pcr + maxPainScorePart spot max_pain (MP_DIV symbol))).2,
          ((flowReasons (flowAnalysis
              (((near_chain chain atm_strike).map StrikeRow.ce_oich).sum)
              (((near_chain chain atm_strike).map StrikeRow.pe_oich).sum))
            ++ trendReasons (trendStatusOf (trend_score (near_chain chain atm_strike)))
            ++ pcrReasons pcr).take 2),
          pcr, max_pain, spot⟩ := by
  simp only [calculate_signals, if_neg h1, if_neg h2]

/-- Priority rank of a strategy: the order in which the four rule blocks
append to `signals`. -/
def strategyPrio : Strategy → Nat
  | .pcrSentiment => 0
  | .maxPainReversion => 1
  | .smartMoneyFlow => 2
  | .trendAlignment => 3

theorem pcrSignal_strategy (pcr : ℚ) :
    ∀ s ∈ (pcrSignal pcr).toList, s.strategy = Strategy.pcrSentiment := by
  intro s hs
  unfold pcrSignal at hs
  split_ifs at hs <;> simp_all [Option.toList]

theorem maxPainSignal_strategy (spot pcr : ℚ) (max_pain mp_div : Int) :
    ∀ s ∈ (maxPainSignal spot pcr max_pain mp_div).toList,
      s.strategy = Strategy.maxPainReversion := by
  intro s hs
  unfold maxPainSignal at hs
  split_ifs at hs <;> simp_all [Option.toList]

theorem flowSignal_strategy (st : FlowStatus) :
    ∀ s ∈ (flowSignal st).toList, s.strategy = Strategy.smartMoneyFlow := by
  intro s hs
  unfold flowSignal at hs
  split_ifs at hs <;> simp_all [Option.toList]

theorem trendSignal_strategy (ts : TrendStatus) :
    ∀ s ∈ (trendSignal ts).toList, s.strategy = Strategy.trendAlignment := by
  intro s hs
  unfold trendSignal at hs
  split_ifs at hs <;> simp_all [Option.toList]

theorem optSignals_invariant (a b c d : Option Signal)
    (ha : ∀ s ∈ a.toList, s.strategy = Strategy.pcrSentiment)
    (hb : ∀ s ∈ b.toList, s.strategy = Strategy.maxPainReversion)
    (hc : ∀ s ∈ c.toList, s.strategy = Strategy.smartMoneyFlow)
    (hd : ∀ s ∈ d.toList, s.strategy = Strategy.trendAlignment) :
    (a.toList ++ b.toList ++ c.toList ++ d.toList).length ≤ 4 ∧
    List.Pairwise (fun x y => strategyPrio x.strategy < strategyPrio y.strategy)
      (a.toList ++ b.toList ++ c.toList ++ d.toList) ∧
    ∀ x ∈ a.toList ++ b.toList ++ c.toList ++ d.toList,
      ∀ y ∈ a.toList ++ b.toList ++ c.toList ++ d.toList,
        x.strategy = y.strategy → x = y := by
  rcases a with _ | sa <;> rcases b with _ | sb <;>
    rcases c with _ | sc <;> rcases d with _ | sd <;>
    simp_all [Option.toList, List.pairwise_cons, strategyPrio]

/-- C10: `calculate_signals` emits at most four signals, at most one per
strategy (so no strategy ever emits both a Bullish and a Bearish signal in
one invocation), and the list is ordered by the fixed strategy priority
PCR Sentiment, Max Pain Reversion, Smart Money Flow, Trend Alignment. -/
theorem calculate_signals_list_spec (symbol : MktSymbol) (chain : List StrikeRow)
    (spot pcr : ℚ) (max_pain atm_strike : Int) :
    ((calculate_signals symbol chain spot pcr max_pain atm_strike).1.length ≤ 4) ∧
    List.Pairwise (fun x y => strategyPrio x.strategy < strategyPrio y.strategy)
      (calculate_signals symbol chain spot pcr max_pain atm_strike).1 ∧
    ∀ x ∈ (calculate_signals symbol chain spot pcr max_pain atm_strike).1,
      ∀ y ∈ (calculate_signals symbol chain spot pcr max_pain atm_strike).1,
        x.strategy = y.strategy → x = y := by
  by_cases h1 : chain = [] ∨ atm_strike = 0
  · unfold calculate_signals
    rw [if_pos h1]
    simp
  · by_cases h2 : chain.length < 10
    · unfold calculate_signals
      rw [if_neg h1, if_pos h2]
      simp
    · rw [calculate_signals_fst symbol chain spot pcr max_pain atm_strike h1 h2]
      exact optSignals_invariant _ _ _ _ (pcrSignal_strategy _)
        (maxPainSignal_strategy _ _ _ _) (flowSignal_strategy _) (trendSignal_strategy _)

/-- A 10-strike chain around ATM 25000 (step 100) with all OI-change and
trend fields at their defaults; used to instantiate theorems. -/
def sampleChain : List StrikeRow :=
  [{ strike := 24550 }, { strike := 24650 }, { strike := 24750 }, { strike := 24850 },
   { strike := 24950 }, { strike := 25050 }, { strike := 25150 }, { strike := 25250 },
   { strike := 25350 }, { strike := 25450 }]

/-- `sampleChain` with OI-change 2 (calls) and 3 (puts) on the near-ATM
strike 24950: the put OI-change sum is exactly 1.5 times the call sum. -/
def flowTieChain : List StrikeRow :=
  [{ strike := 24550 }, { strike := 24650 }, { strike := 24750 }, { strike := 24850 },
   { strike := 24950, ce_oich := 2, pe_oich := 3 }, { strike := 25050 }, { strike := 25150 },
   { strike := 25250 }, { strike := 25350 }, { strike := 25450 }]

/-- `sampleChain` with OI-change 2 (calls) and 4 (puts) on the near-ATM
strike 24950: the put sum strictly exceeds 1.5 times the call sum. -/
def flowBullChain : List StrikeRow :=
  [{ strike := 24550 }, { strike := 24650 }, { strike := 24750 }, { strike := 24850 },
   { strike := 24950, ce_oich := 2, pe_oich := 4 }, { strike := 25050 }, { strike := 25150 },
   { strike := 25250 }, { strike := 25350 }, { strike := 25450 }]

theorem MP_DIV_pos (symbol : MktSymbol) : 0 < MP_DIV symbol := by
  cases symbol <;> decide

/-- C5: once the guards pass the composite score is the sum of the four
rule contributions; the flow rule contributes in [−4,4], exactly ±4 for
the unwinding variants, ±3 for the writing variants and 0 when balanced;
the trend rule contributes −2, 0 or 2; the PCR rule contributes −2, 0 or 2
at the 1.1/0.9 thresholds; the max-pain rule contributes −1, 0 or 1 with
spot above max-pain plus the divisor subtracting 1. -/
theorem calculate_signals_score_spec (symbol : MktSymbol) (chain : List StrikeRow)
    (spot pcr : ℚ) (max_pain atm_strike : Int)
    (h1 : ¬(chain = [] ∨ atm_strike = 0)) (h2 : ¬ chain.length < 10) :
    (∃ c : SignalCard,
      (calculate_signals symbol chain spot pcr max_pain atm_strike).2 = some c ∧
      c.score = flowScorePart (flowAnalysis
            (((near_chain chain atm_strike).map StrikeRow.ce_oich).sum)
            (((near_chain chain atm_strike).map StrikeRow.pe_oich).sum))
          + trendScorePart (trendStatusOf (trend_score (near_chain chain atm_strike)))
          + pcrScorePart pcr + maxPainScorePart spot max_pain (MP_DIV symbol)) ∧
    (∀ st : FlowStatus, -4 ≤ flowScorePart st ∧ flowScorePart st ≤ 4) ∧
    flowScorePart FlowStatus.callUnwinding = 4 ∧
    flowScorePart FlowStatus.putUnwinding = -4 ∧
    flowScorePart FlowStatus.strongPutWriting = 3 ∧
    flowScorePart FlowStatus.strongCallWriting = -3 ∧
    flowScorePart FlowStatus.balanced = 0 ∧
    (∀ ts : TrendStatus,
      trendScorePart ts = -2 ∨ trendScorePart ts = 0 ∨ trendScorePart ts = 2) ∧
    (pcrScorePart pcr = -2 ∨ pcrScorePart pcr = 0 ∨ pcrScorePart pcr = 2) ∧
    (pcr ≥ 11 / 10 → pcrScorePart pcr = 2) ∧
    (pcr ≤ 9 / 10 → pcrScorePart pcr = -2) ∧
    (9 / 10 < pcr → pcr < 11 / 10 → pcrScorePart pcr = 0) ∧
    (maxPainScorePart spot max_pain (MP_DIV symbol) = -1
      ∨ maxPainScorePart spot max_pain (MP_DIV symbol) = 0
      ∨ maxPainScorePart spot max_pain (MP_DIV symbol) = 1) ∧
    (spot > ((max_pain : ℚ) + ((MP_DIV symbol) : ℚ))
      → maxPainScorePart spot max_pain (MP_DIV symbol) = -1) ∧
    (spot < ((max_pain : ℚ) - ((MP_DIV symbol) : ℚ))
      → maxPainScorePart spot max_pain (MP_DIV symbol) = 1) := by
  refine ⟨⟨_, calculate_signals_snd symbol chain spot pcr max_pain atm_strike h1 h2, rfl⟩,
    ?_, by decide, by decide, by decide, by decide, by decide,
    ?_, ?_, ?_, ?_, ?_, ?_, ?_, ?_⟩
  · intro st
    cases st <;> exact (by decide)
  · intro ts
    cases ts <;> exact (by decide)
  · unfold pcrScorePart
    split_ifs <;> simp
  · intro h
    unfold pcrScorePart
    rw [if_pos h]
  · intro h
    have hne : ¬ (pcr ≥ 11 / 10) := by
      intro hcon
      linarith
    unfold pcrScorePart
    rw [if_neg hne, if_pos h]
  · intro ha hb
    have hne1 : ¬ (pcr ≥ 11 / 10) := by
      intro hcon
      linarith
    have hne2 : ¬ (pcr ≤ 9 / 10) := by
      intro hcon
      linarith
    unfold pcrScorePart
    rw [if_neg hne1, if_neg hne2]
  · unfold maxPainScorePart
    split_ifs <;> simp
  · intro h
    unfold maxPainScorePart
    rw [if_pos h]
  · intro h
    have hdiv : (0 : ℚ) ≤ ((MP_DIV symbol) : Int) := by
      have := MP_DIV_pos symbol
      exact_mod_cast le_of_lt this
    have hne : ¬ (spot > ((max_pain : ℚ) + ((MP_DIV symbol) : ℚ))) := by
      intro hcon
      linarith
    unfold maxPainScorePart
    rw [if_neg hne, if_pos h]

/-- Witness for C5: on `sampleChain` (all flows balanced, pcr 1, spot well
below max pain) the composite score is exactly the max-pain contribution 1. -/
theorem calculate_signals_score_spec_witness :
    ∃ c : SignalCard,
      (calculate_signals MktSymbol.NIFTY sampleChain 24000 1 25000 25000).2 = some c ∧
      c.score = 1 := by
  rcases (calculate_signals_score_spec MktSymbol.NIFTY sampleChain 24000 1 25000 25000
    (by decide) (by decide)).1 with ⟨c, hc, hs⟩
  refine ⟨c, hc, ?_⟩
  rw [hs]
  norm_num [sampleChain, near_chain, List.filter, flowAnalysis, flowScorePart,
    trend_score, ce_trend_delta, pe_trend_delta, trendStatusOf, trendScorePart,
    pcrScorePart, maxPainScorePart, MP_DIV, FlowStatus.isBull, FlowStatus.isBear,
    FlowStatus.hasUnwinding]
  norm_num [show ¬(MktSymbol.NIFTY = MktSymbol.BANKNIFTY) from by decide,
    show ¬(TrendStatus.neutral = TrendStatus.bullish) from by decide,
    show ¬(TrendStatus.neutral = TrendStatus.bearish) from by decide]

/-- The local `ce_chg_sum` of `calculate_signals`: call OI-change summed
over the near-ATM rows. -/
def ce_chg_sum (chain : List StrikeRow) (atm_strike : Int) : Int :=
  ((near_chain chain atm_strike).map StrikeRow.ce_oich).sum

/-- The local `pe_chg_sum` of `calculate_signals`: put OI-change summed
over the near-ATM rows. -/
def pe_chg_sum (chain : List StrikeRow) (atm_strike : Int) : Int :=
  ((near_chain chain atm_strike).map StrikeRow.pe_oich).sum

theorem flowAnalysis_strongPut (ce pe : Int) (hce : 0 < ce) (hpe : 0 < pe)
    (h : (pe : ℚ) > (ce : ℚ) * (3 / 2)) :
    flowAnalysis ce pe = FlowStatus.strongPutWriting := by
  unfold flowAnalysis
  rw [if_neg (by omega), if_neg (by omega), if_pos ⟨hce, hpe⟩, if_pos h]

theorem flowAnalysis_strongCall (ce pe : Int) (hce : 0 < ce) (hpe : 0 < pe)
    (h : (ce : ℚ) > (pe : ℚ) * (3 / 2)) :
    flowAnalysis ce pe = FlowStatus.strongCallWriting := by
  have hpeq : (0 : ℚ) < (pe : ℚ) := by exact_mod_cast hpe
  have hnot : ¬ ((pe : ℚ) > (ce : ℚ) * (3 / 2)) := by
    intro hcon
    linarith
  unfold flowAnalysis
  rw [if_neg (by omega), if_neg (by omega), if_pos ⟨hce, hpe⟩, if_neg hnot, if_pos h]

theorem flowAnalysis_balanced_of_pos (ce pe : Int) (hce : 0 < ce) (hpe : 0 < pe)
    (h1 : ¬ ((pe : ℚ) > (ce : ℚ) * (3 / 2)))
    (h2 : ¬ ((ce : ℚ) > (pe : ℚ) * (3 / 2))) :
    flowAnalysis ce pe = FlowStatus.balanced := by
  unfold flowAnalysis
  rw [if_neg (by omega), if_neg (by omega), if_pos ⟨hce, hpe⟩, if_neg h1, if_neg h2]

/-- C3 (amended): restricted to strikes within 1.2% of the ATM strike, when
both OI-change sums are positive: a put sum STRICTLY greater than 1.5 times
the call sum yields Strong Put Writing and a Bullish Smart Money Flow
signal; a call sum strictly greater than 1.5 times the put sum yields
Strong Call Writing and a Bearish signal; otherwise (including a sum equal
to exactly 1.5 times the other) the flow is Balanced and no Smart Money
Flow signal is emitted. -/
theorem smart_money_flow_spec (symbol : MktSymbol) (chain : List StrikeRow)
    (spot pcr : ℚ) (max_pain atm_strike : Int)
    (h1 : ¬(chain = [] ∨ atm_strike = 0)) (h2 : ¬ chain.length < 10)
    (hce : 0 < ce_chg_sum chain atm_strike)
    (hpe : 0 < pe_chg_sum chain atm_strike) :
    ((pe_chg_sum chain atm_strike : ℚ) > (ce_chg_sum chain atm_strike : ℚ) * (3 / 2) →
      flowAnalysis (ce_chg_sum chain atm_strike) (pe_chg_sum chain atm_strike)
          = FlowStatus.strongPutWriting ∧
        (⟨SigType.bullish, Strategy.smartMoneyFlow⟩ : Signal)
          ∈ (calculate_signals symbol chain spot pcr max_pain atm_strike).1) ∧
    ((ce_chg_sum chain atm_strike : ℚ) > (pe_chg_sum chain atm_strike : ℚ) * (3 / 2) →
      flowAnalysis (ce_chg_sum chain atm_strike) (pe_chg_sum chain atm_strike)
          = FlowStatus.strongCallWriting ∧
        (⟨SigType.bearish, Strategy.smartMoneyFlow⟩ : Signal)
          ∈ (calculate_signals symbol chain spot pcr max_pain atm_strike).1) ∧
    (¬ ((pe_chg_sum chain atm_strike : ℚ) > (ce_chg_sum chain atm_strike : ℚ) * (3 / 2)) →
     ¬ ((ce_chg_sum chain atm_strike : ℚ) > (pe_chg_sum chain atm_strike : ℚ) * (3 / 2)) →
      flowAnalysis (ce_chg_sum chain atm_strike) (pe_chg_sum chain atm_strike)
          = FlowStatus.balanced ∧
        ∀ s ∈ (calculate_signals symbol chain spot pcr max_pain atm_strike).1,
          s.strategy ≠ Strategy.smartMoneyFlow) := by
  have hfst : (calculate_signals symbol chain spot pcr max_pain atm_strike).1
      = (pcrSignal pcr).toList
        ++ (maxPainSignal spot pcr max_pain (MP_DIV symbol)).toList
        ++ (flowSignal (flowAnalysis (ce_chg_sum chain atm_strike)
              (pe_chg_sum chain atm_strike))).toList
        ++ (trendSignal (trendStatusOf (trend_score (near_chain chain atm_strike)))).toList :=
    calculate_signals_fst symbol chain spot pcr max_pain atm_strike h1 h2
  refine ⟨?_, ?_, ?_⟩
  · intro hgt
    have hst := flowAnalysis_strongPut _ _ hce hpe hgt
    refine ⟨hst, ?_⟩
    rw [hfst, hst]
    have hmem : (⟨SigType.bullish, Strategy.smartMoneyFlow⟩ : Signal)
        ∈ (flowSignal FlowStatus.strongPutWriting).toList := by decide
    exact List.mem_append_left _ (List.mem_append_right _ hmem)
  · intro hgt
    have hst := flowAnalysis_strongCall _ _ hce hpe hgt
    refine ⟨hst, ?_⟩
    rw [hfst, hst]
    have hmem : (⟨SigType.bearish, Strategy.smartMoneyFlow⟩ : Signal)
        ∈ (flowSignal FlowStatus.strongCallWriting).toList := by decide
    exact List.mem_append_left _ (List.mem_append_right _ hmem)
  · intro hg1 hg2
    have hst := flowAnalysis_balanced_of_pos _ _ hce hpe hg1 hg2
    refine ⟨hst, ?_⟩
    intro s hs
    rw [hfst, hst] at hs
    rcases List.mem_append.mp hs with h3 | h3
    · rcases List.mem_append.mp h3 with h4 | h4
      · rcases List.mem_append.mp h4 with h5 | h5
        · rw [pcrSignal_strategy pcr s h5]
          decide
        · rw [maxPainSignal_strategy spot pcr max_pain (MP_DIV symbol) s h5]
          decide
      · have hemp : (flowSignal FlowStatus.balanced).toList = [] := by decide
        rw [hemp] at h4
        exact absurd h4 (List.not_mem_nil s)
    · rw [trendSignal_strategy (trendStatusOf (trend_score (near_chain chain atm_strike))) s h3]
      decide

/-- Witness for C3: on `flowBullChain` the near-ATM put OI-change sum (4)
strictly exceeds 1.5 times the call sum (2), so the flow is Strong Put
Writing and a Bullish Smart Money Flow signal is emitted. -/
theorem smart_money_flow_spec_witness :
    flowAnalysis (ce_chg_sum flowBullChain 25000) (pe_chg_sum flowBullChain 25000)
      = FlowStatus.strongPutWriting ∧
    (⟨SigType.bullish, Strategy.smartMoneyFlow⟩ : Signal)
      ∈ (calculate_signals MktSymbol.NIFTY flowBullChain 25000 1 25000 25000).1 :=
  (smart_money_flow_spec MktSymbol.NIFTY flowBullChain 25000 1 25000 25000
    (by decide) (by decide)
    (by norm_num [ce_chg_sum, flowBullChain, near_chain, List.filter])
    (by norm_num [pe_chg_sum, flowBullChain, near_chain, List.filter])).1
    (by norm_num [ce_chg_sum, pe_chg_sum, flowBullChain, near_chain, List.filter])

/-- C3 counterexample: with near-ATM call OI-change sum 2 and put sum 3
(both positive, the put sum exactly 1.5 times the call sum, hence
"exceeding by a factor of at least 1.5"), the claim mandates a Bullish
Strong Put Writing signal, but the source's strict comparison
(`pe_chg_sum > ce_chg_sum * 1.5`) classifies the flow as Balanced and
emits no Smart Money Flow signal. -/
theorem smart_money_flow_counterexample :
    (ce_chg_sum flowTieChain 25000 = 2) ∧
    (pe_chg_sum flowTieChain 25000 = 3) ∧
    ((3 : ℚ) ≥ (2 : ℚ) * (3 / 2)) ∧
    flowAnalysis 2 3 = FlowStatus.balanced ∧
    ((calculate_signals MktSymbol.NIFTY flowTieChain 25000 1 25000 25000).1.filter
      (fun s => s.strategy = Strategy.smartMoneyFlow) = []) := by
  refine ⟨?_, ?_, by norm_num, ?_, ?_⟩
  · norm_num [ce_chg_sum, flowTieChain, near_chain, List.filter]
  · norm_num [pe_chg_sum, flowTieChain, near_chain, List.filter]
  · norm_num [flowAnalysis]
  · rw [calculate_signals_fst MktSymbol.NIFTY flowTieChain 25000 1 25000 25000
      (by decide) (by decide)]
    norm_num [flowTieChain, near_chain, List.filter, pcrSignal, maxPainSignal,
      flowAnalysis, flowSignal, trendSignal, trend_score, ce_trend_delta,
      pe_trend_delta, trendStatusOf, MP_DIV, FlowStatus.isBull, FlowStatus.isBear,
      show ¬(MktSymbol.NIFTY = MktSymbol.BANKNIFTY) from by decide,
      show ¬(TrendStatus.neutral = TrendStatus.bullish) from by decide,
      show ¬(TrendStatus.neutral = TrendStatus.bearish) from by decide]

theorem flowReasons_empty_iff (st : FlowStatus) :
    flowReasons st = [] ↔ flowScorePart st = 0 := by
  cases st <;> decide

theorem trendReasons_empty_iff (ts : TrendStatus) :
    trendReasons ts = [] ↔ trendScorePart ts = 0 := by
  cases ts <;> decide

theorem pcrReasons_empty_iff (pcr : ℚ) :
    pcrReasons pcr = [] ↔ pcrScorePart pcr = 0 := by
  unfold pcrReasons pcrScorePart
  split_ifs <;> norm_num

theorem flowReasons_sub (st : FlowStatus) (r : String) (h : r ∈ flowReasons st) :
    r ∈ ["Call Unwinding (Explosive)", "Put Writing (Support)",
         "Put Unwinding (Crash)", "Call Writing (Resistance)",
         "Bullish Structure", "Bearish Structure",
         "PCR Oversold/Bullish", "PCR Overbought/Bearish"] := by
  cases st <;> simp_all [flowReasons, FlowStatus.isBull, FlowStatus.isBear,
    FlowStatus.hasUnwinding]

theorem trendReasons_sub (ts : TrendStatus) (r : String) (h : r ∈ trendReasons ts) :
    r ∈ ["Call Unwinding (Explosive)", "Put Writing (Support)",
         "Put Unwinding (Crash)", "Call Writing (Resistance)",
         "Bullish Structure", "Bearish Structure",
         "PCR Oversold/Bullish", "PCR Overbought/Bearish"] := by
  cases ts <;> simp_all [trendReasons]

theorem pcrReasons_sub (pcr : ℚ) (r : String) (h : r ∈ pcrReasons pcr) :
    r ∈ ["Call Unwinding (Explosive)", "Put Writing (Support)",
         "Put Unwinding (Crash)", "Call Writing (Resistance)",
         "Bullish Structure", "Bearish Structure",
         "PCR Oversold/Bullish", "PCR Overbought/Bearish"] := by
  unfold pcrReasons at h
  split_ifs at h <;> simp_all

/-- C4 (amended): once the guards pass, the card carries the top two
contributing reasons in priority order flow, trend, PCR; each of those
three rules contributes its reason exactly when its score contribution is
nonzero; the max-pain rule adjusts the score but never appends a reason,
so every reason on the card is one of the six flow/trend/PCR strings. -/
theorem calculate_signals_reasons_spec (symbol : MktSymbol) (chain : List StrikeRow)
    (spot pcr : ℚ) (max_pain atm_strike : Int)
    (h1 : ¬(chain = [] ∨ atm_strike = 0)) (h2 : ¬ chain.length < 10) :
    ∃ c : SignalCard,
      (calculate_signals symbol chain spot pcr max_pain atm_strike).2 = some c ∧
      c.reasons = (flowReasons (flowAnalysis (ce_chg_sum chain atm_strike)
            (pe_chg_sum chain atm_strike))
          ++ trendReasons (trendStatusOf (trend_score (near_chain chain atm_strike)))
          ++ pcrReasons pcr).take 2 ∧
      (flowReasons (flowAnalysis (ce_chg_sum chain atm_strike)
            (pe_chg_sum chain atm_strike)) = []
        ↔ flowScorePart (flowAnalysis (ce_chg_sum chain atm_strike)
            (pe_chg_sum chain atm_strike)) = 0) ∧
      (trendReasons (trendStatusOf (trend_score (near_chain chain atm_strike))) = []
        ↔ trendScorePart (trendStatusOf (trend_score (near_chain chain atm_strike))) = 0) ∧
      (pcrReasons pcr = [] ↔ pcrScorePart pcr = 0) ∧
      ∀ r ∈ c.reasons,
        r ∈ ["Call Unwinding (Explosive)", "Put Writing (Support)",
             "Put Unwinding (Crash)", "Call Writing (Resistance)",
             "Bullish Structure", "Bearish Structure",
             "PCR Oversold/Bullish", "PCR Overbought/Bearish"] := by
  refine ⟨_, calculate_signals_snd symbol chain spot pcr max_pain atm_strike h1 h2,
    rfl, flowReasons_empty_iff _, trendReasons_empty_iff _, pcrReasons_empty_iff _, ?_⟩
  intro r hr
  have hr2 := List.take_subset 2 _ hr
  rcases List.mem_append.mp hr2 with h3 | h3
  · rcases List.mem_append.mp h3 with h4 | h4
    · exact flowReasons_sub _ r h4
    · exact trendReasons_sub _ r h4
  · exact pcrReasons_sub pcr r h3

/-- Witness for C4 at `sampleChain` with a neutral PCR: no rule of the
first three contributes, so the reason list is empty. -/
theorem calculate_signals_reasons_spec_witness :
    ∃ c : SignalCard,
      (calculate_signals MktSymbol.NIFTY sampleChain 24000 1 25000 25000).2 = some c ∧
      c.reasons = [] := by
  rcases calculate_signals_reasons_spec MktSymbol.NIFTY sampleChain 24000 1 25000 25000
    (by decide) (by decide) with ⟨c, hc, hr, _⟩
  refine ⟨c, hc, ?_⟩
  rw [hr]
  norm_num [ce_chg_sum, pe_chg_sum, sampleChain, near_chain, List.filter,
    flowAnalysis, flowReasons, trend_score, ce_trend_delta, pe_trend_delta,
    trendStatusOf, trendReasons, pcrReasons, FlowStatus.isBull, FlowStatus.isBear,
    show ¬(TrendStatus.neutral = TrendStatus.bullish) from by decide,
    show ¬(TrendStatus.neutral = TrendStatus.bearish) from by decide]

/-- C4 counterexample: on `sampleChain` with spot 24000, pcr 1, max pain
25000 the max-pain rule contributes +1 (the only nonzero contribution, so
fewer than two higher-priority rules contribute), yet the card's reason
list is empty — no max-pain reason ever appears, contradicting the claim. -/
theorem maxpain_reason_counterexample :
    maxPainScorePart 24000 25000 (MP_DIV MktSymbol.NIFTY) = 1 ∧
    ((calculate_signals MktSymbol.NIFTY sampleChain 24000 1 25000 25000).2.map
      SignalCard.reasons = some []) ∧
    ((calculate_signals MktSymbol.NIFTY sampleChain 24000 1 25000 25000).2.map
      SignalCard.score = some 1) := by
  have hsnd := calculate_signals_snd MktSymbol.NIFTY sampleChain 24000 1 25000 25000
    (by decide) (by decide)
  refine ⟨?_, ?_, ?_⟩
  · norm_num [maxPainScorePart, MP_DIV,
      show ¬(MktSymbol.NIFTY = MktSymbol.BANKNIFTY) from by decide]
  · rw [hsnd]
    norm_num [sampleChain, near_chain, List.filter, flowAnalysis, flowReasons,
      trend_score, ce_trend_delta, pe_trend_delta, trendStatusOf, trendReasons,
      pcrReasons, FlowStatus.isBull, FlowStatus.isBear,
      show ¬(TrendStatus.neutral = TrendStatus.bullish) from by decide,
      show ¬(TrendStatus.neutral = TrendStatus.bearish) from by decide]
  · rw [hsnd]
    norm_num [sampleChain, near_chain, List.filter, flowAnalysis, flowScorePart,
      trend_score, ce_trend_delta, pe_trend_delta, trendStatusOf, trendScorePart,
      pcrScorePart, maxPainScorePart, MP_DIV, FlowStatus.isBull, FlowStatus.isBear,
      FlowStatus.hasUnwinding,
      show ¬(MktSymbol.NIFTY = MktSymbol.BANKNIFTY) from by decide,
      show ¬(TrendStatus.neutral = TrendStatus.bullish) from by decide,
      show ¬(TrendStatus.neutral = TrendStatus.bearish) from by decide]

/-- Python's `round(x, 2)`: rounding to two decimals, halves to even. -/
def pyRound2 (q : ℚ) : ℚ :=
  let scaled := q * 100
  let f : Int := ⌊scaled⌋
  let frac := scaled - (f : ℚ)
  let r : Int :=
    if frac < 1 / 2 then f
    else if frac > 1 / 2 then f + 1
    else if f % 2 = 0 then f else f + 1
  (r : ℚ) / 100

/-- The PCR computation of `data_worker`: total put OI over total call OI
rounded to two decimals, 0 when the call OI sum is not positive. -/
def pcr_of (chain : List StrikeRow) : ℚ :=
  let total_ce_oi := (chain.map StrikeRow.ce_oi).sum
  let total_pe_oi := (chain.map StrikeRow.pe_oi).sum
  if 0 < total_ce_oi then pyRound2 ((total_pe_oi : ℚ) / (total_ce_oi : ℚ)) else 0

/-- C9: the PCR is invariant under any permutation of the chain's strike
rows. -/
theorem pcr_of_perm (chain chain2 : List StrikeRow) (h : chain.Perm chain2) :
    pcr_of chain = pcr_of chain2 := by
  unfold pcr_of
  rw [(h.map StrikeRow.ce_oi).sum_eq, (h.map StrikeRow.pe_oi).sum_eq]

/-- Witness for C9: swapping two rows leaves the PCR unchanged. -/
theorem pcr_of_perm_witness :
    pcr_of [({ strike := 100, ce_oi := 4, pe_oi := 5 } : StrikeRow),
            { strike := 200, ce_oi := 6, pe_oi := 7 }]
      = pcr_of [({ strike := 200, ce_oi := 6, pe_oi := 7 } : StrikeRow),
            { strike := 100, ce_oi := 4, pe_oi := 5 }] :=
  pcr_of_perm _ _ (List.Perm.swap _ _ _)

/-- `get_next_tuesday` from `src/app.py`. The current instant is modelled
as a day ordinal (with `weekday = (ordinal + 6) % 7`, Monday = 0, matching
`dateOrdinal` below) together with the hour and minute of the local time;
the source reads only the weekday and the hour (the minute is carried so
that claims about clock times can be stated). The returned value is the
day ordinal of the produced datetime, whose time-of-day the source leaves
unchanged. -/
def get_next_tuesday (dayOrd hour minute : Nat) : Nat :=
  let wd : Int := (dayOrd + 6) % 7
  let days_ahead : Int := 1 - wd
  let days_ahead2 : Int := if days_ahead < 0 then days_ahead + 7 else days_ahead
  let days_ahead3 : Int :=
    if days_ahead2 = 0 ∧ 15 < hour then days_ahead2 + 7 else days_ahead2
  dayOrd + days_ahead3.toNat

/-- C7 (amended): `get_next_tuesday` returns a Tuesday at or after the
current day, the earliest such Tuesday unless the current day is itself a
Tuesday with the hour strictly greater than 15 (i.e. 16:00 onwards, not
every instant past 15:00), in which case it returns the following week's
Tuesday. -/
theorem get_next_tuesday_spec (dayOrd hour minute : Nat) :
    ((get_next_tuesday dayOrd hour minute + 6) % 7 = 1) ∧
    dayOrd ≤ get_next_tuesday dayOrd hour minute ∧
    (((dayOrd + 6) % 7 = 1 ∧ 15 < hour) →
      get_next_tuesday dayOrd hour minute = dayOrd + 7) ∧
    (¬ ((dayOrd + 6) % 7 = 1 ∧ 15 < hour) →
      ∀ t : Nat, dayOrd ≤ t → (t + 6) % 7 = 1 →
        get_next_tuesday dayOrd hour minute ≤ t) := by
  refine ⟨?_, ?_, ?_, ?_⟩
  · simp only [get_next_tuesday]
    split_ifs <;> omega
  · simp only [get_next_tuesday]
    split_ifs <;> omega
  · intro h
    simp only [get_next_tuesday]
    split_ifs <;> omega
  · intro h t ht hm
    simp only [get_next_tuesday]
    split_ifs <;> omega

/-- C7 counterexample: day ordinal 2 is a Tuesday (`(2+6) % 7 = 1`); at
15:30 — an instant past 15:00 — the claim mandates rolling to the next
week's Tuesday (ordinal 9), but the source's `today.hour > 15` test is
false at hour 15, so the same Tuesday is returned. -/
theorem get_next_tuesday_counterexample :
    (2 + 6) % 7 = 1 ∧
    15 * 60 + 30 > 15 * 60 ∧
    get_next_tuesday 2 15 30 = 2 ∧
    get_next_tuesday 2 15 30 ≠ 2 + 7 := by
  decide

/-- Proleptic-Gregorian leap year, as Python's `datetime.date`. -/
def isLeap (y : Nat) : Bool :=
  (y % 4 == 0 && y % 100 != 0) || (y % 400 == 0)

/-- Length of month `m` of year `y` (the day count that
`next_month_start - timedelta(days=1)` lands on). -/
def daysInMonth (y m : Nat) : Nat :=
  if m = 2 then (if isLeap y then 29 else 28)
  else if m = 4 ∨ m = 6 ∨ m = 9 ∨ m = 11 then 30
  else 31

/-- Days in the years strictly before year `y`. -/
def daysBeforeYear (y : Nat) : Nat :=
  365 * (y - 1) + (y - 1) / 4 - (y - 1) / 100 + (y - 1) / 400

/-- Days in the months of year `y` strictly before month `m`. -/
def daysBeforeMonth (y m : Nat) : Nat :=
  (List.range (m - 1)).foldl (fun acc k => acc + daysInMonth y (k + 1)) 0

/-- Proleptic-Gregorian ordinal of a date: 0001-01-01 is day 1, a Monday
(Python's `date.toordinal`). -/
def dateOrdinal (y m d : Nat) : Nat :=
  daysBeforeYear y + daysBeforeMonth y m + d

/-- Python's `date.weekday()`: Monday = 0 … Sunday = 6. Day 1 is a
Monday, so the weekday is `(ordinal - 1) % 7`, written `(ordinal + 6) % 7`
to stay in the natural numbers. -/
def weekday (y m d : Nat) : Nat :=
  (dateOrdinal y m d + 6) % 7

/-- The last-Tuesday computation of `get_expiry_code`: the last day of the
month stepped back by `(weekday - 1) % 7` days (Tuesday = 1); Python's
`%` of the possibly negative `weekday - 1` is written `(weekday + 6) % 7`. -/
def lastTuesdayDay (y m : Nat) : Nat :=
  daysInMonth y m - (weekday y m (daysInMonth y m) + 6) % 7

/-- `'%y'`-style zero-padded two-digit decimal rendering (also `'%d'`). -/
def twoDigit (n : Nat) : List Char :=
  [Nat.digitChar (n / 10 % 10), Nat.digitChar (n % 10)]

/-- `date_obj.strftime('%b').upper()`: three-letter uppercase month name. -/
def monthAbbrev : Nat → List Char
  | 1 => ['J', 'A', 'N']
  | 2 => ['F', 'E', 'B']
  | 3 => ['M', 'A', 'R']
  | 4 => ['A', 'P', 'R']
  | 5 => ['M', 'A', 'Y']
  | 6 => ['J', 'U', 'N']
  | 7 => ['J', 'U', 'L']
  | 8 => ['A', 'U', 'G']
  | 9 => ['S', 'E', 'P']
  | 10 => ['O', 'C', 'T']
  | 11 => ['N', 'O', 'V']
  | 12 => ['D', 'E', 'C']
  | _ => []

/-- The `m_map` dict of `get_expiry_code`: month-code characters. -/
def m_map : Nat → Char
  | 1 => '1'
  | 2 => '2'
  | 3 => '3'
  | 4 => '4'
  | 5 => '5'
  | 6 => '6'
  | 7 => '7'
  | 8 => '8'
  | 9 => '9'
  | 10 => 'O'
  | 11 => 'N'
  | 12 => 'D'
  | _ => ' '

/-- `get_expiry_code` from `src/app.py`; the produced f-string is modelled
as its character list. -/
def get_expiry_code (y m d : Nat) (force_monthly : Bool) : List Char :=
  if force_monthly || d == lastTuesdayDay y m then
    twoDigit (y % 100) ++ monthAbbrev m
  else
    twoDigit (y % 100) ++ [m_map m] ++ twoDigit d

/-- The monthly `YYMMM` shape: two decimal digits then three uppercase
letters. -/
def isYYMMM : List Char → Bool
  | [a, b, c, d, e] => a.isDigit && b.isDigit && c.isUpper && d.isUpper && e.isUpper
  | _ => false

/-- The weekly `YY<code><DD>` shape: two digits, a month-code character (a
digit or one of 'O', 'N', 'D'), then two digits. -/
def isYYcDD : List Char → Bool
  | [a, b, c, d, e] =>
      a.isDigit && b.isDigit
        && (c.isDigit || c == 'O' || c == 'N' || c == 'D')
        && d.isDigit && e.isDigit
  | _ => false

theorem digitChar_isDigit : ∀ k : Nat, k < 10 → (Nat.digitChar k).isDigit = true := by
  decide

theorem digitChar_not_upper : ∀ k : Nat, k < 10 → (Nat.digitChar k).isUpper = false := by
  decide

theorem daysInMonth_ge (y m : Nat) (hm1 : 1 ≤ m) (hm2 : m ≤ 12) :
    28 ≤ daysInMonth y m := by
  interval_cases m <;> simp [daysInMonth] <;> split_ifs <;> omega

theorem weekday_lastTuesday (y m : Nat) (hm1 : 1 ≤ m) (hm2 : m ≤ 12) :
    weekday y m (lastTuesdayDay y m) = 1 ∧
    ∀ e : Nat, lastTuesdayDay y m < e → e ≤ daysInMonth y m → weekday y m e ≠ 1 := by
  have hL : 28 ≤ daysInMonth y m := daysInMonth_ge y m hm1 hm2
  constructor
  · unfold lastTuesdayDay weekday dateOrdinal
    omega
  · intro e h1 h2
    unfold lastTuesdayDay weekday dateOrdinal at h1
    unfold weekday dateOrdinal
    omega

theorem get_expiry_code_pos (y m d : Nat) (f : Bool)
    (h : f = true ∨ d = lastTuesdayDay y m) :
    get_expiry_code y m d f = twoDigit (y % 100) ++ monthAbbrev m := by
  unfold get_expiry_code
  have hc : (f || (d == lastTuesdayDay y m)) = true := by
    rcases h with h | h
    · simp [h]
    · simp [h]
  simp [hc]

theorem get_expiry_code_neg (y m d : Nat) (f : Bool)
    (h : ¬ (f = true ∨ d = lastTuesdayDay y m)) :
    get_expiry_code y m d f = twoDigit (y % 100) ++ [m_map m] ++ twoDigit d := by
  push_neg at h
  unfold get_expiry_code
  have hf : f = false := by
    cases f
    · rfl
    · exact absurd rfl h.1
  have hd : (d == lastTuesdayDay y m) = false := by
    simpa using h.2
  simp [hf, hd]

theorem isYYMMM_monthly (y m : Nat) (hm1 : 1 ≤ m) (hm2 : m ≤ 12) :
    isYYMMM (twoDigit (y % 100) ++ monthAbbrev m) = true := by
  have h1 : (Nat.digitChar (y % 100 / 10 % 10)).isDigit = true :=
    digitChar_isDigit _ (by omega)
  have h2 : (Nat.digitChar (y % 100 % 10)).isDigit = true :=
    digitChar_isDigit _ (by omega)
  interval_cases m <;>
    simp only [twoDigit, monthAbbrev, List.cons_append, List.nil_append, isYYMMM,
      h1, h2] <;> decide

theorem isYYcDD_weekly (y m d : Nat) (hm1 : 1 ≤ m) (hm2 : m ≤ 12) :
    isYYcDD (twoDigit (y % 100) ++ [m_map m] ++ twoDigit d) = true := by
  have h1 : (Nat.digitChar (y % 100 / 10 % 10)).isDigit = true :=
    digitChar_isDigit _ (by omega)
  have h2 : (Nat.digitChar (y % 100 % 10)).isDigit = true :=
    digitChar_isDigit _ (by omega)
  have h3 : (Nat.digitChar (d / 10 % 10)).isDigit = true :=
    digitChar_isDigit _ (by omega)
  have h4 : (Nat.digitChar (d % 10)).isDigit = true :=
    digitChar_isDigit _ (by omega)
  interval_cases m <;>
    simp only [twoDigit, m_map, List.cons_append, List.nil_append, isYYcDD,
      h1, h2, h3, h4] <;> decide

theorem isYYMMM_weekly_false (y m d : Nat) :
    isYYMMM (twoDigit (y % 100) ++ [m_map m] ++ twoDigit d) = false := by
  have h3 : (Nat.digitChar (d / 10 % 10)).isUpper = false :=
    digitChar_not_upper _ (by omega)
  simp only [twoDigit, List.cons_append, List.nil_append, isYYMMM, h3]
  simp

/-- C6: for every valid proleptic-Gregorian date, `get_expiry_code` emits
the `YYMMM` shape (two digits then three uppercase letters) exactly when
`force_monthly` is set or the date is the month's last Tuesday — where
`lastTuesdayDay` is proved to be genuinely the last Tuesday of the month —
and otherwise emits the `YY<code><DD>` shape with the month-code character
at index 2, mapping months 1–9 to the digits '1'–'9' and months 10, 11, 12
to 'O', 'N', 'D'. -/
theorem get_expiry_code_spec (y m d : Nat) (force_monthly : Bool)
    (hy : 1 ≤ y) (hm1 : 1 ≤ m) (hm2 : m ≤ 12)
    (hd1 : 1 ≤ d) (hd2 : d ≤ daysInMonth y m) :
    (isYYMMM (get_expiry_code y m d force_monthly) = true
      ↔ (force_monthly = true ∨ d = lastTuesdayDay y m)) ∧
    (¬ (force_monthly = true ∨ d = lastTuesdayDay y m) →
      isYYcDD (get_expiry_code y m d force_monthly) = true ∧
      (get_expiry_code y m d force_monthly).get? 2 = some (m_map m)) ∧
    (1 ≤ m ∧ m ≤ 9 → m_map m = Nat.digitChar m) ∧
    m_map 10 = 'O' ∧ m_map 11 = 'N' ∧ m_map 12 = 'D' ∧
    weekday y m (lastTuesdayDay y m) = 1 ∧
    (∀ e : Nat, lastTuesdayDay y m < e → e ≤ daysInMonth y m →
      weekday y m e ≠ 1) := by
  refine ⟨?_, ?_, ?_, rfl, rfl, rfl,
    (weekday_lastTuesday y m hm1 hm2).1, (weekday_lastTuesday y m hm1 hm2).2⟩
  · by_cases hcond : force_monthly = true ∨ d = lastTuesdayDay y m
    · rw [get_expiry_code_pos y m d force_monthly hcond]
      simp only [hcond, iff_true]
      exact isYYMMM_monthly y m hm1 hm2
    · rw [get_expiry_code_neg y m d force_monthly hcond]
      simp only [hcond, iff_false]
      rw [isYYMMM_weekly_false y m d]
      simp
  · intro hcond
    rw [get_expiry_code_neg y m d force_monthly hcond]
    refine ⟨isYYcDD_weekly y m d hm1 hm2, ?_⟩
    simp [twoDigit, List.cons_append, List.nil_append]
  · intro hm9
    have h9 : m ≤ 9 := hm9.2
    interval_cases m <;> rfl

/-- Witness for C6 at 2026-02-10 (not the last Tuesday of February 2026):
the weekly shape is emitted with month code '2'. -/
theorem get_expiry_code_spec_witness :
    isYYcDD (get_expiry_code 2026 2 10 false) = true ∧
    (get_expiry_code 2026 2 10 false).get? 2 = some (m_map 2) :=
  (get_expiry_code_spec 2026 2 10 false (by decide) (by decide) (by decide)
    (by decide) (by decide)).2.1 (by decide)

/-- Option-leg tag of a persisted `option_chain` row. -/
inductive OType
  | CE
  | PE
deriving DecidableEq

/-- One persisted `option_chain` row of a single timestamp bucket, as
selected by `get_oi_history` (the grouped-away timestamp is dropped; the
trailing `oi` column of the SELECT is never read). -/
structure DbRow where
  strike : Int
  otype : OType
  oich : Int
  ltp : ℚ
deriving DecidableEq

/-- `strike_map[strike][otype] = ltp` over the bucket rows: the last row
with the given strike and leg wins, as for repeated dict assignment. -/
def legLtp (rows : List DbRow) (s : Int) (t : OType) : Option ℚ :=
  rows.foldl (fun acc r => if r.strike = s ∧ r.otype = t then some r.ltp else acc) none

/-- The |CE − PE| last-price gap of a strike, when both legs are present. -/
def strikeDiff (rows : List DbRow) (s : Int) : Option ℚ :=
  match legLtp rows s OType.CE, legLtp rows s OType.PE with
  | some ce, some pe => some |ce - pe|
  | _, _ => none

/-- The spot-estimation fallback of `get_oi_history`: the first strike (in
dict insertion order) with both legs whose gap is strictly minimal; `none`
when no strike has both legs. -/
def bestStep (rows : List DbRow) (acc : Option (Int × ℚ)) (s : Int) :
    Option (Int × ℚ) :=
  match strikeDiff rows s with
  | some dv =>
    match acc with
    | none => some (s, dv)
    | some (b, mv) => if dv < mv then some (s, dv) else some (b, mv)
  | none => acc

def bestStrike (rows : List DbRow) : Option Int :=
  ((pyDedup (rows.map DbRow.strike)).foldl (bestStep rows) none).map Prod.fst

/-- Python string `<=`: lexicographic comparison by code point with the
prefix rule. -/
def pyStrLe : List Char → List Char → Bool
  | [], _ => true
  | _ :: _, [] => false
  | a :: as, b :: bs => if a < b then true else if a = b then pyStrLe as bs else false

/-- The session filter `"09:15:00" <= time_part <= "15:30:00"`. -/
def inSession (time_part : List Char) : Bool :=
  pyStrLe ("09:15:00".toList) time_part && pyStrLe time_part ("15:30:00".toList)

/-- The CE OI-change sum of the bucket loop: rows within `range_limit` of
the resolved spot. -/
def bucketCeSum (rows : List DbRow) (spot : ℚ) (range_limit : Int) : Int :=
  rows.foldl (fun acc r =>
    if |(r.strike : ℚ) - spot| ≤ (range_limit : ℚ) ∧ r.otype = OType.CE
      then acc + r.oich else acc) 0

/-- The PE OI-change sum of the bucket loop. -/
def bucketPeSum (rows : List DbRow) (spot : ℚ) (range_limit : Int) : Int :=
  rows.foldl (fun acc r =>
    if |(r.strike : ℚ) - spot| ≤ (range_limit : ℚ) ∧ r.otype = OType.PE
      then acc + r.oich else acc) 0

/-- One emitted OI-history entry (the `time` field repeats the grouping
key and is omitted). -/
structure HistEntry where
  ce_change : Int
  pe_change : Int
  price : Option ℚ
deriving DecidableEq

/-- The per-bucket body of the `get_oi_history` loop: session filter,
direct spot tick, put-call-parity fallback (rejected by `if best_strike:`
when the estimated strike is 0), skip when no spot was determined, then
range-filtered OI-change sums, the emitted price being only the direct
tick (`price_map.get(ts, None)`). -/
def processBucket (range_limit : Int) (priceTick : Option ℚ)
    (time_part : List Char) (rows : List DbRow) : Option HistEntry :=
  if inSession time_part = false then none
  else
    let spotOpt : Option ℚ :=
      match priceTick with
      | some p => some p
      | none =>
        match bestStrike rows with
        | some s => if s ≠ 0 then some ((s : Int) : ℚ) else none
        | none => none
    match spotOpt with
    | none => none
    | some spot =>
      some ⟨bucketCeSum rows spot range_limit, bucketPeSum rows spot range_limit, priceTick⟩

theorem legLtp_skip (rows : List DbRow) (s : Int) (t : OType) :
    ∀ acc : Option ℚ, (∀ r ∈ rows, r.strike ≠ s) →
      rows.foldl (fun acc r =>
        if r.strike = s ∧ r.otype = t then some r.ltp else acc) acc = acc := by
  induction rows with
  | nil =>
    intro acc _
    rfl
  | cons r rs ih =>
    intro acc hno
    rw [List.foldl_cons]
    have hr : ¬ (r.strike = s ∧ r.otype = t) := by
      intro hcon
      exact hno r (List.mem_cons_self r rs) hcon.1
    rw [if_neg hr]
    exact ih acc (fun r2 h2 => hno r2 (List.mem_cons_of_mem r h2))

theorem bestFoldAux (rows : List DbRow) (l : List Int) :
    ∀ acc : Option (Int × ℚ),
      (∀ p : Int × ℚ, acc = some p → strikeDiff rows p.1 = some p.2) →
      ∀ q : Int × ℚ,
        l.foldl (bestStep rows) acc = some q →
        strikeDiff rows q.1 = some q.2 ∧
        (∀ p : Int × ℚ, acc = some p → q.2 ≤ p.2) ∧
        (∀ s ∈ l, ∀ dv : ℚ, strikeDiff rows s = some dv → q.2 ≤ dv) := by
  induction l with
  | nil =>
    intro acc hacc q hq
    rw [List.foldl_nil] at hq
    refine ⟨hacc q hq, ?_, ?_⟩
    · intro p hp
      rw [hq] at hp
      rw [Option.some.inj hp]
    · intro s hs
      exact absurd hs (List.not_mem_nil s)
  | cons s0 ss ih =>
    intro acc hacc q hq
    rw [List.foldl_cons] at hq
    rcases hsd : strikeDiff rows s0 with _ | dv0
    · have hstep : bestStep rows acc s0 = acc := by
        simp [bestStep, hsd]
      rw [hstep] at hq
      have hres := ih acc hacc q hq
      refine ⟨hres.1, hres.2.1, ?_⟩
      intro s hs dv hdv
      rcases List.mem_cons.mp hs with h | h
      · rw [h, hsd] at hdv
        exact absurd hdv (by simp)
      · exact hres.2.2 s h dv hdv
    · rcases acc with _ | ⟨b, mv⟩
      · have hstep : bestStep rows none s0 = some (s0, dv0) := by
          simp [bestStep, hsd]
        rw [hstep] at hq
        have hnew : ∀ p : Int × ℚ, (some (s0, dv0) : Option (Int × ℚ)) = some p →
            strikeDiff rows p.1 = some p.2 := by
          intro p hp
          rw [← Option.some.inj hp]
          exact hsd
        have hres := ih (some (s0, dv0)) hnew q hq
        refine ⟨hres.1, ?_, ?_⟩
        · intro p hp
          exact absurd hp (by simp)
        · intro s hs dv hdv
          rcases List.mem_cons.mp hs with h | h
          · rw [h, hsd] at hdv
            rw [← Option.some.inj hdv]
            exact hres.2.1 (s0, dv0) rfl
          · exact hres.2.2 s h dv hdv
      · by_cases hlt : dv0 < mv
        · have hstep : bestStep rows (some (b, mv)) s0 = some (s0, dv0) := by
            simp [bestStep, hsd, hlt]
          rw [hstep] at hq
          have hnew : ∀ p : Int × ℚ, (some (s0, dv0) : Option (Int × ℚ)) = some p →
              strikeDiff rows p.1 = some p.2 := by
            intro p hp
            rw [← Option.some.inj hp]
            exact hsd
          have hres := ih (some (s0, dv0)) hnew q hq
          have hq2 : q.2 ≤ dv0 := hres.2.1 (s0, dv0) rfl
          refine ⟨hres.1, ?_, ?_⟩
          · intro p hp
            rw [← Option.some.inj hp]
            exact le_trans hq2 (le_of_lt hlt)
          · intro s hs dv hdv
            rcases List.mem_cons.mp hs with h | h
            · rw [h, hsd] at hdv
              rw [← Option.some.inj hdv]
              exact hq2
            · exact hres.2.2 s h dv hdv
        · have hstep : bestStep rows (some (b, mv)) s0 = some (b, mv) := by
            simp [bestStep, hsd, hlt]
          rw [hstep] at hq
          have hold : ∀ p : Int × ℚ, (some (b, mv) : Option (Int × ℚ)) = some p →
              strikeDiff rows p.1 = some p.2 := by
            intro p hp
            rw [← Option.some.inj hp]
            exact hacc (b, mv) rfl
          have hres := ih (some (b, mv)) hold q hq
          have hq2 : q.2 ≤ mv := hres.2.1 (b, mv) rfl
          refine ⟨hres.1, ?_, ?_⟩
          · intro p hp
            rw [← Option.some.inj hp]
            exact hq2
          · intro s hs dv hdv
            rcases List.mem_cons.mp hs with h | h
            · rw [h, hsd] at hdv
              rw [← Option.some.inj hdv]
              exact le_trans hq2 (le_of_not_lt hlt)
            · exact hres.2.2 s h dv hdv

theorem bestStrike_min (rows : List DbRow) (s : Int) (h : bestStrike rows = some s) :
    ∃ dv : ℚ, strikeDiff rows s = some dv ∧
      ∀ s2 : Int, ∀ d2 : ℚ, strikeDiff rows s2 = some d2 → dv ≤ d2 := by
  unfold bestStrike at h
  rcases hq : (pyDedup (rows.map DbRow.strike)).foldl (bestStep rows) none with _ | q
  · rw [hq] at h
    exact absurd h (by simp)
  · rw [hq] at h
    have hq1 : q.1 = s := by
      simpa using h
    have hres := bestFoldAux rows (pyDedup (rows.map DbRow.strike)) none
      (by intro p hp; exact absurd hp (by simp)) q hq
    refine ⟨q.2, hq1 ▸ hres.1, ?_⟩
    intro s2 d2 hd2
    have hmem : s2 ∈ pyDedup (rows.map DbRow.strike) := by
      rw [mem_pyDedup]
      rcases hce : legLtp rows s2 OType.CE with _ | ce
      · unfold strikeDiff at hd2
        rw [hce] at hd2
        exact absurd hd2 (by simp)
      · by_contra hno
        have hnos : ∀ r ∈ rows, r.strike ≠ s2 := by
          intro r hr hcon
          exact hno (List.mem_map.mpr ⟨r, hr, hcon⟩)
        have : legLtp rows s2 OType.CE = none := legLtp_skip rows s2 OType.CE none hnos
        rw [this] at hce
        exact absurd hce (by simp)
    exact hres.2.2 s2 hmem d2 hd2

/-- C8 (amended): for a bucket inside the trading session: a directly
recorded spot tick is used as the spot and emitted as the price; otherwise
the spot is estimated as the strike minimizing the |CE−PE| last-price gap
among strikes with both legs and — provided that strike is nonzero — the
entry is emitted with a null price even though the proxy filtered the OI
sums; when no spot can be determined (no strike has both legs, or the
minimizing strike is 0 and falls to the `if best_strike:` truthiness
test), the bucket is skipped entirely. -/
theorem processBucket_spec (range_limit : Int) (priceTick : Option ℚ)
    (time_part : List Char) (rows : List DbRow)
    (hsess : inSession time_part = true) :
    (∀ p : ℚ, priceTick = some p →
      processBucket range_limit priceTick time_part rows
        = some ⟨bucketCeSum rows p range_limit, bucketPeSum rows p range_limit, some p⟩) ∧
    (priceTick = none → ∀ s : Int, bestStrike rows = some s → s ≠ 0 →
      processBucket range_limit priceTick time_part rows
        = some ⟨bucketCeSum rows ((s : Int) : ℚ) range_limit,
                bucketPeSum rows ((s : Int) : ℚ) range_limit, none⟩) ∧
    (priceTick = none → bestStrike rows = none →
      processBucket range_limit priceTick time_part rows = none) ∧
    (priceTick = none → bestStrike rows = some 0 →
      processBucket range_limit priceTick time_part rows = none) ∧
    (∀ s : Int, bestStrike rows = some s →
      ∃ dv : ℚ, strikeDiff rows s = some dv ∧
        ∀ s2 : Int, ∀ d2 : ℚ, strikeDiff rows s2 = some d2 → dv ≤ d2) := by
  have hns : ¬ (inSession time_part = false) := by
    rw [hsess]
    simp
  refine ⟨?_, ?_, ?_, ?_, fun s h => bestStrike_min rows s h⟩
  · intro p hp
    unfold processBucket
    rw [if_neg hns, hp]
  · intro hn s hbs hs0
    unfold processBucket
    rw [if_neg hns, hn, hbs]
    simp [hs0]
  · intro hn hbs
    unfold processBucket
    rw [if_neg hns, hn, hbs]
  · intro hn hbs
    unfold processBucket
    rw [if_neg hns, hn, hbs]
    simp

/-- Witness for C8: a session bucket with a direct spot tick of 5 over no
rows is emitted with that tick as its price. -/
theorem processBucket_spec_witness :
    processBucket 1000 (some 5) ("10:00:00".toList) []
      = some ⟨0, 0, some 5⟩ :=
  (processBucket_spec 1000 (some 5) ("10:00:00".toList) [] (by decide)).1 5 rfl

/-- C8 counterexample: a session bucket with no direct tick whose only
both-leg strike is 0 — the put-call-parity proxy finds strike 0 as the
minimizer, but the source's `if best_strike:` truthiness test rejects 0,
so the bucket is skipped instead of being emitted with a null price as the
claim mandates. -/
theorem processBucket_counterexample :
    bestStrike [⟨0, OType.CE, 5, 10⟩, ⟨0, OType.PE, 7, 10⟩] = some 0 ∧
    processBucket 1000 none ("10:00:00".toList)
      [⟨0, OType.CE, 5, 10⟩, ⟨0, OType.PE, 7, 10⟩] = none := by
  have hbs : bestStrike [⟨0, OType.CE, 5, 10⟩, ⟨0, OType.PE, 7, 10⟩] = some 0 := by
    have hdiff : strikeDiff [⟨0, OType.CE, 5, 10⟩, ⟨0, OType.PE, 7, 10⟩] 0
        = some 0 := by
      norm_num [strikeDiff, legLtp,
        show ¬(OType.CE = OType.PE) from by decide,
        show ¬(OType.PE = OType.CE) from by decide]
    norm_num [bestStrike, pyDedup, bestStep, hdiff]
  refine ⟨hbs, ?_⟩
  unfold processBucket
  rw [if_neg (by decide), hbs]
  simp
